import Mathlib

/-!
Verification of the loose-octree core of the isoengine repository
(src/scene/octree.rs, src/math/bcube.rs, src/grafix/math/vector3d.rs).

The Rust source works on f32 coordinates; every scenario checked here uses
small dyadic rationals, on which f32 arithmetic (add, sub, halving, doubling,
comparison) is exact, so the coordinates are modelled as exact rationals ℚ.
`NodeID` is a bitwise complement of an arena index in the source; the
complement is a bijection, so nodes are addressed here directly by their
arena index (a `Nat`), and the "entries"/"nodes" vectors are lists.
Operations that can panic in Rust (out-of-bounds indexing) or recurse
without a structural bound are modelled as fuelled functions returning
`Option`: `none` means the call does not return normally.
-/

/-- 3D vector with rational components, mirroring `Vec3<Meters>` of
`grafix/math/vector3d.rs`. -/
structure Vec3 where
  x : ℚ
  y : ℚ
  z : ℚ
deriving Repr, DecidableEq

/-- Component-wise addition (`impl Add for Vec3`). -/
def Vec3.add (a b : Vec3) : Vec3 := ⟨a.x + b.x, a.y + b.y, a.z + b.z⟩

/-- Component-wise subtraction (`impl Sub for Vec3`). -/
def Vec3.sub (a b : Vec3) : Vec3 := ⟨a.x - b.x, a.y - b.y, a.z - b.z⟩

/-- Model of `Vec3::scaled`: multiply every component by a scalar. -/
def Vec3.scaled (v : Vec3) (s : ℚ) : Vec3 := ⟨v.x * s, v.y * s, v.z * s⟩

/-- Model of `f32::abs` on non-NaN input, as used by `BoundingCube::octant` and
`contains`. -/
def qabs (q : ℚ) : ℚ := if q < 0 then -q else q

/-- The `Octant` bitflags of octree.rs: three independent axis bits with
`SX = 0b001`, `SY = 0b010`, `SZ = 0b100`. -/
structure Octant where
  sx : Bool
  sy : Bool
  sz : Bool
deriving Repr, DecidableEq

/-- The numeric value of the flag set (`Octant::bits`): SX is the 1 bit,
SY the 2 bit, SZ the 4 bit. -/
def Octant.bits (o : Octant) : Nat :=
  (cond o.sx 1 0) + (cond o.sy 2 0) + (cond o.sz 4 0)

/-- Bitwise or of two flag values (`BitOr` on bitflags). -/
def Octant.or (a b : Octant) : Octant := ⟨a.sx || b.sx, a.sy || b.sy, a.sz || b.sz⟩

/-- Flag `S0 = 0b000`. -/
def S0 : Octant := ⟨false, false, false⟩

/-- Flag `SX = 0b001`. -/
def SX : Octant := ⟨true, false, false⟩

/-- Flag `SY = 0b010`. -/
def SY : Octant := ⟨false, true, false⟩

/-- Flag `SZ = 0b100`. -/
def SZ : Octant := ⟨false, false, true⟩

/-- Model of `Octant::as_vector`, arm for arm from the source match on `self.bits`:
`0b000 ↦ (-1,-1,-1)`, `0b100 ↦ (1,-1,-1)`, `0b010 ↦ (-1,1,-1)`,
`0b001 ↦ (-1,-1,1)`, `0b110 ↦ (1,1,-1)`, `0b101 ↦ (1,-1,1)`,
`0b011 ↦ (-1,1,1)`, `0b111 ↦ (1,1,1)`.
Note the source maps the arm for bits `0b001` (which is `SX`) to a vector
whose positive component is on the z axis, and `0b100` (`SZ`) to a vector
whose positive component is on the x axis. -/
def Octant.as_vector (o : Octant) : Vec3 :=
  match o.sx, o.sy, o.sz with
  | false, false, false => ⟨-1, -1, -1⟩  -- 0b000
  | false, false, true  => ⟨1, -1, -1⟩   -- 0b100
  | false, true,  false => ⟨-1, 1, -1⟩   -- 0b010
  | true,  false, false => ⟨-1, -1, 1⟩   -- 0b001
  | false, true,  true  => ⟨1, 1, -1⟩    -- 0b110
  | true,  false, true  => ⟨1, -1, 1⟩    -- 0b101
  | true,  true,  false => ⟨-1, 1, 1⟩    -- 0b011
  | true,  true,  true  => ⟨1, 1, 1⟩     -- 0b111

/-- Model of `BoundingCube`: axis-aligned cube given by center and half edge length. -/
structure BoundingCube where
  center : Vec3
  half_edge : ℚ
deriving Repr, DecidableEq

/-- Model of `BoundingCube::octant`: the octant of `self` containing `v`, or `none`
when some component of `v - center` has absolute value above the half
edge.  A bit is set only when the component is strictly positive (boundary
points go to the bit-clear side). -/
def BoundingCube.octant (bc : BoundingCube) (v : Vec3) : Option Octant :=
  let diff := v.sub bc.center
  if qabs diff.x > bc.half_edge then none
  else
    let ox := if diff.x > 0 then SX else S0
    if qabs diff.y > bc.half_edge then none
    else
      let oy := if diff.y > 0 then SY else S0
      if qabs diff.z > bc.half_edge then none
      else some ((ox.or oy).or (if diff.z > 0 then SZ else S0))

/-- Model of `BoundingCube::contains`: strict containment on all three axes. -/
def BoundingCube.contains (bc : BoundingCube) (v : Vec3) : Bool :=
  let diff := v.sub bc.center
  qabs diff.x < bc.half_edge && qabs diff.y < bc.half_edge && qabs diff.z < bc.half_edge

/-- A node of the octree arena.  `children` is the `[Option<NodeID>; 8]`
array indexed by octant bits; `contents` is the `Vec<EntryID>`. -/
structure Node where
  bcube : BoundingCube
  octant : Octant
  parent : Option Nat
  children : List (Option Nat)
  contents : List Nat
deriving Repr, DecidableEq

/-- An entry of the octree.  The payload field `val: T` of the source plays
no role in any claim and is modelled as `Unit`. -/
structure Entry where
  bcube : BoundingCube
  node : Nat
  val : Unit
deriving Repr, DecidableEq

/-- The `LooseOctree` state: root node id, node arena, entry table, and the
`min_dist` subdivision threshold. -/
structure LooseOctree where
  root : Nat
  nodes : List Node
  entries : List Entry
  min_dist : ℚ
deriving Repr, DecidableEq

/-- Model of `LooseOctree::new`: a single root node (arena index 0) covering
`initial`, with octant `S0`, no parent, no children, no contents. -/
def LooseOctree.new (initial : BoundingCube) (min : ℚ) : LooseOctree :=
  { root := 0
    nodes := [⟨initial, S0, none, List.replicate 8 none, []⟩]
    entries := []
    min_dist := min }

/-- Model of `LooseOctree::new_node`: push onto the arena, return the new index. -/
def new_node (s : LooseOctree) (n : Node) : Nat × LooseOctree :=
  (s.nodes.length, { s with nodes := s.nodes ++ [n] })

/-- Mutate the node at index `i` (the `node_by_id_mut` / `self.nodes[i]`
pattern); `none` models the Rust index-out-of-bounds panic. -/
def modifyNode (s : LooseOctree) (i : Nat) (f : Node → Node) : Option LooseOctree :=
  match s.nodes.get? i with
  | none => none
  | some nd => some { s with nodes := s.nodes.set i (f nd) }

/-- Mutate the entry at index `i` (`self.entries[i]`); `none` models the
out-of-bounds panic. -/
def modifyEntry (s : LooseOctree) (i : Nat) (f : Entry → Entry) : Option LooseOctree :=
  match s.entries.get? i with
  | none => none
  | some e => some { s with entries := s.entries.set i (f e) }

/-- The parent fixup of `free_node`: if the moved (previously last) node
had a parent, repoint that parent's child slot at the freed index. -/
def fixupParent (s : LooseOctree) (last : Node) (id : Nat) : Option LooseOctree :=
  match last.parent with
  | none => some s
  | some pid => modifyNode s pid fun pn =>
      { pn with children := pn.children.set last.octant.bits (some id) }

/-- The child fixup of `free_node`: every child of the moved node gets its
parent field repointed at the freed index. -/
def fixupChildren (s : LooseOctree) (children : List (Option Nat)) (id : Nat) :
    Option LooseOctree :=
  match children with
  | [] => some s
  | none :: rest => fixupChildren s rest id
  | some cid :: rest =>
      (modifyNode s cid fun cn => { cn with parent := some id }).bind
        fun s' => fixupChildren s' rest id

/-- The entry fixup of `free_node`: every entry listed in the moved node's
contents gets its node field repointed at the freed index. -/
def fixupEntries (s : LooseOctree) (contents : List Nat) (id : Nat) : Option LooseOctree :=
  match contents with
  | [] => some s
  | eid :: rest =>
      (modifyEntry s eid fun e => { e with node := id }).bind
        fun s' => fixupEntries s' rest id

/-- Model of `LooseOctree::free_node`: remove node `id` by swapping the last arena
element into its slot, fixing up the moved node's parent link, children
links and entry links.  If `id` is the last element, just pop.  Note that
the freed node's own parent keeps its (now stale) child slot. -/
def free_node (s : LooseOctree) (id : Nat) : Option LooseOctree :=
  if id + 1 = s.nodes.length then
    some { s with nodes := s.nodes.dropLast }
  else
    match s.nodes.getLast? with
    | none => none
    | some last =>
      let s1 : LooseOctree := { s with nodes := s.nodes.dropLast }
      (fixupParent s1 last id).bind fun s2 =>
      (fixupChildren s2 last.children id).bind fun s3 =>
      (fixupEntries s3 last.contents id).bind fun s4 =>
      if id < s4.nodes.length then
        some { s4 with nodes := s4.nodes.set id last }
      else none

/-- Model of `LooseOctree::maybe_free`: release `id` when it has a parent, no
contents and no populated child slot, then recurse on the parent.  The
source recursion is bounded by the arena size (each recursive call follows
a successful `free_node`, which shrinks the arena by one), so a fuel of
`nodes.length + 1` at the call sites can never be exhausted. -/
def maybe_freeF : Nat → LooseOctree → Nat → Option LooseOctree
  | 0, _, _ => none
  | fuel + 1, s, id =>
    match s.nodes.get? id with
    | none => none
    | some nd =>
      match nd.parent with
      | none => some s
      | some pid =>
        if nd.contents.isEmpty && !(nd.children.any Option.isSome) then
          (free_node s id).bind fun s' => maybe_freeF fuel s' pid
        else some s

/-- Model of `LooseOctree::get_child`: return the existing child of `id` at `oct`,
or allocate one with half the half-edge, centered at
`center + as_vector(oct) * (half_edge / 2)`, and link it into the parent's
children array. -/
def get_child (s : LooseOctree) (id : Nat) (oct : Octant) : Option (Nat × LooseOctree) :=
  match s.nodes.get? id with
  | none => none
  | some nd =>
    match nd.children.getD oct.bits none with
    | some child => some (child, s)
    | none =>
      let old_bcube := nd.bcube
      let new_center := old_bcube.center.add (oct.as_vector.scaled (old_bcube.half_edge / 2))
      let (child, s1) := new_node s
        { bcube := ⟨new_center, old_bcube.half_edge * (1/2)⟩
          octant := oct
          parent := some id
          children := List.replicate 8 none
          contents := [] }
      (modifyNode s1 id fun n =>
        { n with children := n.children.set oct.bits (some child) }).map
        fun s2 => (child, s2)

/-- The octant computation inside `make_parent_toward` (octree.rs lines
260-262): per axis, the bit is clear when the component of `v - center` is
negative and set otherwise (so a zero component sets the bit). -/
def mptOctant (center v : Vec3) : Octant :=
  let diff := v.sub center
  ((if diff.x < 0 then S0 else SX).or (if diff.y < 0 then S0 else SY)).or
    (if diff.z < 0 then S0 else SZ)

/-- Model of `LooseOctree::make_parent_toward`: allocate a doubled, parentless node
centered at `center + as_vector(octant) * (-half_edge)` and point its child
slot at `id`.  Note the source never writes `id`'s own `parent` or
`octant` fields. -/
def make_parent_toward (s : LooseOctree) (id : Nat) (v : Vec3) : Option (Nat × LooseOctree) :=
  match s.nodes.get? id with
  | none => none
  | some nd =>
    let old_bcube := nd.bcube
    let oct := mptOctant old_bcube.center v
    let new_center := old_bcube.center.add (oct.as_vector.scaled (-old_bcube.half_edge))
    let (node, s1) := new_node s
      { bcube := ⟨new_center, old_bcube.half_edge * 2⟩
        octant := S0
        parent := none
        children := List.replicate 8 none
        contents := [] }
    (modifyNode s1 node fun n =>
      { n with children := n.children.set oct.bits (some id) }).map
      fun s2 => (node, s2)

/-- Model of `LooseOctree::get_node` with explicit fuel: classify `bcube.center`
against the node's cube; descend into a child when
`half_edge / 2 > bcube.half_edge` and `half_edge < min_dist`; ascend when
`half_edge < bcube.half_edge` or when classification fails, creating a
parent when there is none; otherwise return the node.  `none` models a
call that does not return (fuel exhaustion or a Rust panic). -/
def get_nodeF : Nat → LooseOctree → Nat → BoundingCube → Option (Nat × LooseOctree)
  | 0, _, _, _ => none
  | fuel + 1, s, id, bcube =>
    match s.nodes.get? id with
    | none => none
    | some nd =>
      let node_bcube := nd.bcube
      match node_bcube.octant bcube.center with
      | some oct =>
        if node_bcube.half_edge / 2 > bcube.half_edge ∧ node_bcube.half_edge < s.min_dist then
          (get_child s id oct).bind fun cs => get_nodeF fuel cs.2 cs.1 bcube
        else if node_bcube.half_edge < bcube.half_edge then
          match nd.parent with
          | some p => get_nodeF fuel s p bcube
          | none => (make_parent_toward s id bcube.center).bind fun ps =>
              get_nodeF fuel ps.2 ps.1 bcube
        else some (id, s)
      | none =>
        match nd.parent with
        | some p => get_nodeF fuel s p bcube
        | none => (make_parent_toward s id bcube.center).bind fun ps =>
            get_nodeF fuel ps.2 ps.1 bcube

/-- Model of `LooseOctree::insert`: find the best-fit node starting at the root and
append a new entry recording it.  The source does not push the new entry
id into the chosen node's contents list. -/
def insertF (fuel : Nat) (s : LooseOctree) (bcube : BoundingCube) :
    Option (Nat × LooseOctree) :=
  let ent_id := s.entries.length
  (get_nodeF fuel s s.root bcube).map fun ns =>
    (ent_id, { ns.2 with entries := ns.2.entries ++ [⟨bcube, ns.1, ()⟩] })

/-- Model of `LooseOctree::adjust`: recompute the best-fit node from the entry's
current node; when it differs, retain-filter the entry id out of the old
node's contents, `maybe_free` the old node, push the id onto the new
node's contents and update the entry's node field.  The entry's `bcube`
field is not written. -/
def adjustF (fuel : Nat) (s : LooseOctree) (ent_id : Nat) (bcube : BoundingCube) :
    Option LooseOctree :=
  match s.entries.get? ent_id with
  | none => none
  | some e =>
    let current := e.node
    (get_nodeF fuel s current bcube).bind fun ns =>
      if ns.1 ≠ current then
        (modifyNode ns.2 current fun nd =>
          { nd with contents := nd.contents.filter (· != ent_id) }).bind fun s2 =>
        (maybe_freeF (s2.nodes.length + 1) s2 current).bind fun s3 =>
        (modifyNode s3 ns.1 fun nd =>
          { nd with contents := nd.contents ++ [ent_id] }).bind fun s4 =>
        modifyEntry s4 ent_id fun en => { en with node := ns.1 }
      else some ns.2

/-! ## Concrete scenario evaluations -/

/-- Claim C1: the claim states `get_node` descends while the node's
half-edge is more than twice the cube's half-edge AND exceeds `min_dist`,
so inserting a cube of half-edge 1/2 centered at (1,1,1) into a tree with
root half-edge 8 and `min_dist` 1 should land in a node of half-edge 1.
The source guard (octree.rs line 195) instead requires the node half-edge
to be BELOW `min_dist`, so no descent happens: the entry lands in the root
node of half-edge 8 and no node is ever created. -/
theorem C1_descend_guard_inverted :
    ((insertF 5 (LooseOctree.new ⟨⟨0,0,0⟩, 8⟩ 1) ⟨⟨1,1,1⟩, 1/2⟩).map fun r =>
      (r.1, r.2.nodes.length, (r.2.entries.get? 0).map Entry.node,
        (r.2.nodes.get? 0).map fun nd => nd.bcube.half_edge))
    = some (0, 1, some 0, some 8) := by with_unfolding_all decide

/-- Claim C2: the claim states that immediately after `insert` returns,
the new entry's node holds the entry id in its contents list.  The source
`insert` never pushes the id into the chosen node's contents: here the
entry is assigned node 0 while node 0's contents list stays empty. -/
theorem C2_insert_omits_contents_push :
    ((insertF 5 (LooseOctree.new ⟨⟨0,0,0⟩, 8⟩ 1) ⟨⟨0,0,0⟩, 8⟩).map fun r =>
      ((r.2.entries.get? r.1).map Entry.node, (r.2.nodes.get? 0).map Node.contents))
    = some (some 0, some []) := by with_unfolding_all decide

/-- Claim C3: the claim (and the doc comment of `as_vector` in
math/bcube.rs, which says `SX.as_vector() == (1,-1,-1)`) requires the
component along an axis to be +1 exactly when that axis's bit is set.  The
source match arms swap the x and z axes: `SX` (bits 0b001) yields
(-1,-1,1) and `SZ` (bits 0b100) yields (1,-1,-1). -/
theorem C3_as_vector_axes_swapped :
    Octant.as_vector SX = ⟨-1, -1, 1⟩ ∧ Octant.as_vector SZ = ⟨1, -1, -1⟩ ∧
      Octant.as_vector SY = ⟨-1, 1, -1⟩ := by decide

/-- Claim C4: the claim states that a populated `children[o]` slot points
at a node whose own octant is `o` and whose parent is the owning node, in
particular after `make_parent_toward`.  Inserting a half-edge-9 cube grows
a parent (node 1) whose slot 7 points at the old root, but the source
never writes the old root's `parent` or `octant` fields: node 0 keeps
`parent = none` and `octant = S0` (bits 0, not 7). -/
theorem C4_make_parent_toward_missing_backlinks :
    ((insertF 5 (LooseOctree.new ⟨⟨0,0,0⟩, 8⟩ 1) ⟨⟨0,0,0⟩, 9⟩).map fun r =>
      ((r.2.nodes.get? 1).map fun nd => nd.children.getD 7 none,
       (r.2.nodes.get? 0).map fun nd => (nd.parent, nd.octant)))
    = some (some (some 0), some (none, S0)) := by with_unfolding_all decide

set_option synthInstance.maxSize 400 in
set_option maxHeartbeats 4000000 in
/-- Claim C6: the claim states that pruning propagates to every ancestor
that becomes empty and childless.  Here entry 0 sits alone in the
childless leaf node 3 (arena size 4); the final adjust moves it to the
root, node 3 is freed (arena size 3), but its parent node 2 — now empty
and with its only child gone — survives, because `free_node` never clears
the freed node's slot in its parent: node 2 still shows the dangling child
id 3, and `maybe_free`'s recursion stops there. -/
theorem C6_prune_does_not_propagate :
    (((insertF 9 (LooseOctree.new ⟨⟨0,0,0⟩, 8⟩ 100) ⟨⟨1,1,1⟩, 2⟩).bind fun r =>
      (adjustF 9 r.2 0 ⟨⟨1,1,1⟩, 1/2⟩).bind fun sb =>
      (adjustF 9 sb 0 ⟨⟨1,1,1⟩, 5⟩).map fun sc =>
        (sb.nodes.length,
         (sb.nodes.get? 3).map fun nd => (nd.contents, nd.children.any Option.isSome),
         sc.nodes.length,
         (sc.nodes.get? 2).map fun nd => (nd.contents, nd.children.getD 0 none))))
    = some (4, some ([0], false), 3, some ([], some 3)) := by with_unfolding_all decide

set_option synthInstance.maxSize 400 in
set_option maxHeartbeats 4000000 in
/-- Claim C10: the claim states the root node is never freed or moved and
arena slot 0 always holds the node created by `new`.  In this reachable
six-operation sequence a `free_node` swap moves a top node whose child
slot points at the root, and the swap fixup writes a parent pointer into
the root; a later `adjust` then finds the root empty, childless and
parented, and `maybe_free` frees it (violating `free_node`'s own
`debug_assert!(id != self.root)` and the comment "We don't ever free the
root node").  Afterwards slot 0 holds a different node: half-edge 32
instead of the original root's 8. -/
theorem C10_root_gets_freed :
    (((insertF 9 (LooseOctree.new ⟨⟨0,0,0⟩, 8⟩ 100) ⟨⟨0,0,0⟩, 9⟩).bind fun r1 =>
      (adjustF 9 r1.2 0 ⟨⟨-16,-16,-16⟩, 3⟩).bind fun u2 =>
      (insertF 9 u2 ⟨⟨0,0,0⟩, 9⟩).bind fun r3 =>
      (adjustF 9 r3.2 0 ⟨⟨-4,-4,-4⟩, 5⟩).bind fun u4 =>
      (insertF 9 u4 ⟨⟨0,0,0⟩, 17⟩).bind fun r5 =>
      (adjustF 9 r5.2 0 ⟨⟨0,0,0⟩, 9⟩).map fun u6 =>
        ((u4.nodes.get? 0).map Node.parent, u4.root, r5.2.nodes.length,
         u6.root, u6.nodes.length, (u6.nodes.get? 0).map Node.bcube)))
    = some (some (some 3), 0, 5, 0, 4, some ⟨⟨-24,-24,-24⟩, 32⟩) := by
  with_unfolding_all decide

/-! ## C7: tie-break direction of make_parent_toward vs the classifier -/

/-- Claim C7 counterexample: the claim says that a zero component makes
`make_parent_toward` choose the bit-clear side, agreeing with the
classifier.  At `diff = 0` on all axes the source computes the all-bits-set
octant `SXYZ`, while `BoundingCube::octant` classifies the same point to
`S0`: the tie-breaks disagree and the claimed bit value is wrong. -/
theorem C7_counterexample :
    mptOctant ⟨0,0,0⟩ ⟨0,0,0⟩ = ⟨true, true, true⟩ ∧
      BoundingCube.octant ⟨⟨0,0,0⟩, 8⟩ ⟨0,0,0⟩ = some S0 := by
  with_unfolding_all decide

/-- Claim C7 amended: whenever a component of `target_point - center` is
exactly zero on an axis, the octant computed inside `make_parent_toward`
has that axis's bit SET (the source maps negative to clear and
non-negative, zero included, to set), whereas `BoundingCube::octant`
assigns such boundary points to the bit-clear side: the two tie-breaks
disagree at zero. -/
theorem C7_tiebreaks_disagree (c v : Vec3) :
    ((v.x - c.x = 0 → (mptOctant c v).sx = true) ∧
     (v.y - c.y = 0 → (mptOctant c v).sy = true) ∧
     (v.z - c.z = 0 → (mptOctant c v).sz = true)) ∧
    ∀ he o, BoundingCube.octant ⟨c, he⟩ v = some o →
      ((v.x - c.x = 0 → o.sx = false) ∧ (v.y - c.y = 0 → o.sy = false) ∧
       (v.z - c.z = 0 → o.sz = false)) := by
  constructor
  · refine ⟨fun hx => ?_, fun hy => ?_, fun hz => ?_⟩
    · have hx' : (v.sub c).x = 0 := hx
      simp [mptOctant, hx', Octant.or, SX, S0]
    · have hy' : (v.sub c).y = 0 := hy
      simp [mptOctant, hy', Octant.or, SY, S0]
    · have hz' : (v.sub c).z = 0 := hz
      simp [mptOctant, hz', Octant.or, SZ, S0]
  · intro he o h
    simp only [BoundingCube.octant] at h
    by_cases h1 : qabs (v.sub c).x > he
    · rw [if_pos h1] at h; cases h
    rw [if_neg h1] at h
    by_cases h2 : qabs (v.sub c).y > he
    · rw [if_pos h2] at h; cases h
    rw [if_neg h2] at h
    by_cases h3 : qabs (v.sub c).z > he
    · rw [if_pos h3] at h; cases h
    rw [if_neg h3] at h
    have ho := (Option.some.inj h).symm
    subst ho
    refine ⟨fun hx => ?_, fun hy => ?_, fun hz => ?_⟩
    · have hx' : (v.sub c).x = 0 := hx
      simp only [hx', gt_iff_lt, lt_self_iff_false, if_false, Octant.or]
      split_ifs <;> rfl
    · have hy' : (v.sub c).y = 0 := hy
      simp only [hy', gt_iff_lt, lt_self_iff_false, if_false, Octant.or]
      split_ifs <;> rfl
    · have hz' : (v.sub c).z = 0 := hz
      simp only [hz', gt_iff_lt, lt_self_iff_false, if_false, Octant.or]
      split_ifs <;> rfl

/-- Claim C7 witness: the amended theorem applied at center (0,0,0) and
target (0,0,0), where every component of the difference is zero. -/
theorem C7_tiebreaks_disagree_witness :
    (mptOctant ⟨0,0,0⟩ ⟨0,0,0⟩).sx = true ∧
    ∀ o, BoundingCube.octant ⟨⟨0,0,0⟩, 8⟩ ⟨0,0,0⟩ = some o → o.sx = false := by
  have h := C7_tiebreaks_disagree ⟨0,0,0⟩ ⟨0,0,0⟩
  exact ⟨h.1.1 (by norm_num), fun o ho => (h.2 8 o ho).1 (by norm_num)⟩

/-! ## C8: relocation locality -/

/-- When the classification succeeds and neither the descend condition nor
the ascend condition holds, `get_node` returns its start node with the
state untouched. -/
theorem get_nodeF_stay (fuel : Nat) (s : LooseOctree) (i : Nat) (b : BoundingCube)
    (nd : Node) (hnode : s.nodes.get? i = some nd) (oct : Octant)
    (hoct : nd.bcube.octant b.center = some oct)
    (hdesc : ¬(nd.bcube.half_edge / 2 > b.half_edge ∧ nd.bcube.half_edge < s.min_dist))
    (hasc : ¬(nd.bcube.half_edge < b.half_edge)) :
    get_nodeF (fuel + 1) s i b = some (i, s) := by
  simp only [get_nodeF, hnode, hoct]
  rw [if_neg hdesc, if_neg hasc]

/-- The state after inserting an entry with cube center (0,0,0) and
half-edge 1/2 into a fresh tree with root half-edge 8 and min_dist 1. -/
def c8State : LooseOctree :=
  ((insertF 2 (LooseOctree.new ⟨⟨0,0,0⟩, 8⟩ 1) ⟨⟨0,0,0⟩, 1/2⟩).map Prod.snd).getD
    (LooseOctree.new ⟨⟨0,0,0⟩, 8⟩ 1)

/-- Claim C8 counterexample: the claim allows any new center within twice
the node's half-edge (here within 16 of the root center).  The center
(-12,0,0) is within that loose bound on every axis, yet `adjust` moves the
entry to a freshly created node 1 (the arena grows from 1 to 2 nodes and
the entry's node changes from 0 to 1), because the classifier rejects any
center farther than ONE half-edge (8) from the node center. -/
theorem C8_counterexample :
    (qabs ((Vec3.sub ⟨-12,0,0⟩ ⟨0,0,0⟩).x) ≤ 2 * 8 ∧
     qabs ((Vec3.sub ⟨-12,0,0⟩ ⟨0,0,0⟩).y) ≤ 2 * 8 ∧
     qabs ((Vec3.sub ⟨-12,0,0⟩ ⟨0,0,0⟩).z) ≤ 2 * 8) ∧
    (c8State.nodes.length = 1 ∧ (c8State.entries.get? 0).map Entry.node = some (some 0).get!) ∧
    ((adjustF 5 c8State 0 ⟨⟨-12,0,0⟩, 1/2⟩).map fun s' =>
      ((s'.entries.get? 0).map Entry.node, s'.nodes.length))
    = some (some 1, 2) := by
  with_unfolding_all decide

/-- Claim C8 amended: if the new cube's center stays within the node's OWN
half-edge (not twice it) of the node's center on every axis, the new
half-edge does not exceed the node's half-edge, and the descend condition
fails, then `adjust` returns with the octree completely unchanged: same
entry node, no node creation or removal, no contents change. -/
theorem C8_locality_amended (fuel : Nat) (s : LooseOctree) (ent : Nat)
    (b : BoundingCube) (e : Entry) (nd : Node)
    (hent : s.entries.get? ent = some e)
    (hnode : s.nodes.get? e.node = some nd)
    (hx : qabs ((b.center.sub nd.bcube.center).x) ≤ nd.bcube.half_edge)
    (hy : qabs ((b.center.sub nd.bcube.center).y) ≤ nd.bcube.half_edge)
    (hz : qabs ((b.center.sub nd.bcube.center).z) ≤ nd.bcube.half_edge)
    (hdesc : ¬(nd.bcube.half_edge / 2 > b.half_edge ∧ nd.bcube.half_edge < s.min_dist))
    (hasc : ¬(nd.bcube.half_edge < b.half_edge)) :
    adjustF (fuel + 1) s ent b = some s := by
  have hoct : ∃ oct, nd.bcube.octant b.center = some oct := by
    simp only [BoundingCube.octant]
    rw [if_neg (not_lt.mpr hx), if_neg (not_lt.mpr hy), if_neg (not_lt.mpr hz)]
    exact ⟨_, rfl⟩
  obtain ⟨oct, hoct⟩ := hoct
  have hstay := get_nodeF_stay fuel s e.node b nd hnode oct hoct hdesc hasc
  simp only [adjustF, hent, hstay, Option.bind]
  rw [if_neg (fun h => h rfl)]

/-- Claim C8 witness: the amended theorem applied to the concrete state
`c8State` with a new cube centered at (1,0,0), half-edge 1/2: within the
root's own half-edge on every axis, small enough to fit, descend guard
failing; adjust leaves the state untouched. -/
theorem C8_locality_amended_witness :
    adjustF 1 c8State 0 ⟨⟨1,0,0⟩, 1/2⟩ = some c8State :=
  C8_locality_amended 0 c8State 0 ⟨⟨1,0,0⟩, 1/2⟩ ⟨⟨⟨0,0,0⟩, 1/2⟩, 0, ()⟩
    ⟨⟨⟨0,0,0⟩, 8⟩, S0, none, List.replicate 8 none, []⟩
    (by with_unfolding_all decide) (by with_unfolding_all decide)
    (by with_unfolding_all decide) (by with_unfolding_all decide)
    (by with_unfolding_all decide) (by with_unfolding_all decide)
    (by with_unfolding_all decide)

/-! ## C5: what adjust does when the best-fit node changes -/

/-- Setting a valid index makes that slot readable as the new value. -/
theorem nth_set_self {α : Type} : ∀ (l : List α) (i : Nat) (a : α), i < l.length →
    (l.set i a).get? i = some a := by
  intro l
  induction l with
  | nil => intro i a h; cases h
  | cons hd tl ih =>
    intro i a h
    cases i with
    | zero => rfl
    | succ j => exact ih j a (Nat.lt_of_succ_lt_succ h)

/-- Setting one index leaves every other slot unchanged. -/
theorem nth_set_ne {α : Type} : ∀ (l : List α) (i j : Nat) (a : α), i ≠ j →
    (l.set i a).get? j = l.get? j := by
  intro l
  induction l with
  | nil => intro i j a _; rfl
  | cons hd tl ih =>
    intro i j a hne
    cases i with
    | zero =>
      cases j with
      | zero => exact absurd rfl hne
      | succ k => rfl
    | succ i' =>
      cases j with
      | zero => rfl
      | succ k => exact ih i' k a (fun h => hne (congrArg Nat.succ h))

/-- A successful indexed read bounds the index. -/
theorem nth_some_lt {α : Type} : ∀ (l : List α) (i : Nat) (a : α),
    l.get? i = some a → i < l.length := by
  intro l
  induction l with
  | nil => intro i a h; cases h
  | cons hd tl ih =>
    intro i a h
    cases i with
    | zero => exact Nat.succ_pos _
    | succ j => exact Nat.succ_lt_succ (ih j a h)

/-- Lemma: `modifyNode` never touches the entry table, the root or min_dist. -/
theorem modifyNode_frame (s : LooseOctree) (i : Nat) (f : Node → Node)
    (s' : LooseOctree) (h : modifyNode s i f = some s') :
    s'.entries = s.entries ∧ s'.root = s.root ∧ s'.min_dist = s.min_dist := by
  unfold modifyNode at h
  cases hg : s.nodes.get? i with
  | none => rw [hg] at h; cases h
  | some nd => rw [hg] at h; cases h; exact ⟨rfl, rfl, rfl⟩

/-- Lemma: `get_child` never touches the entry table, the root or min_dist. -/
theorem get_child_frame (s : LooseOctree) (i : Nat) (oct : Octant)
    (cs : Nat × LooseOctree) (h : get_child s i oct = some cs) :
    cs.2.entries = s.entries ∧ cs.2.root = s.root ∧ cs.2.min_dist = s.min_dist := by
  cases hg : s.nodes.get? i with
  | none => simp only [get_child, hg] at h; cases h
  | some nd =>
    cases hc : nd.children.getD oct.bits none with
    | some child =>
      simp only [get_child, hg, hc] at h
      cases h
      exact ⟨rfl, rfl, rfl⟩
    | none =>
      simp only [get_child, hg, hc, new_node] at h
      obtain ⟨s2, hm, hfx⟩ := Option.map_eq_some'.mp h
      obtain ⟨e1, e2, e3⟩ := modifyNode_frame _ _ _ _ hm
      cases hfx
      exact ⟨e1, e2, e3⟩

/-- Lemma: `make_parent_toward` never touches the entry table, root or min_dist. -/
theorem make_parent_toward_frame (s : LooseOctree) (i : Nat) (v : Vec3)
    (ps : Nat × LooseOctree) (h : make_parent_toward s i v = some ps) :
    ps.2.entries = s.entries ∧ ps.2.root = s.root ∧ ps.2.min_dist = s.min_dist := by
  cases hg : s.nodes.get? i with
  | none => simp only [make_parent_toward, hg] at h; cases h
  | some nd =>
    simp only [make_parent_toward, hg, new_node] at h
    obtain ⟨s2, hm, hfx⟩ := Option.map_eq_some'.mp h
    obtain ⟨e1, e2, e3⟩ := modifyNode_frame _ _ _ _ hm
    cases hfx
    exact ⟨e1, e2, e3⟩

/-- Lemma: `get_node` never touches the entry table, the root or min_dist. -/
theorem get_nodeF_frame : ∀ (fuel : Nat) (s : LooseOctree) (i : Nat) (b : BoundingCube)
    (js : Nat × LooseOctree), get_nodeF fuel s i b = some js →
    js.2.entries = s.entries ∧ js.2.root = s.root ∧ js.2.min_dist = s.min_dist := by
  intro fuel
  induction fuel with
  | zero => intro s i b js h; cases h
  | succ n ih =>
    intro s i b js h
    cases hg : s.nodes.get? i with
    | none => simp only [get_nodeF, hg] at h; cases h
    | some nd =>
      simp only [get_nodeF, hg] at h
      cases hoct : nd.bcube.octant b.center with
      | some oct =>
        simp only [hoct] at h
        by_cases hd : nd.bcube.half_edge / 2 > b.half_edge ∧ nd.bcube.half_edge < s.min_dist
        · rw [if_pos hd] at h
          obtain ⟨cs, hc, hrec⟩ := Option.bind_eq_some.mp h
          obtain ⟨e1, e2, e3⟩ := get_child_frame s i oct cs hc
          obtain ⟨g1, g2, g3⟩ := ih cs.2 cs.1 b js hrec
          exact ⟨g1.trans e1, g2.trans e2, g3.trans e3⟩
        · rw [if_neg hd] at h
          by_cases ha : nd.bcube.half_edge < b.half_edge
          · rw [if_pos ha] at h
            cases hp : nd.parent with
            | some p => simp only [hp] at h; exact ih s p b js h
            | none =>
              simp only [hp] at h
              obtain ⟨ps, hm, hrec⟩ := Option.bind_eq_some.mp h
              obtain ⟨e1, e2, e3⟩ := make_parent_toward_frame s i b.center ps hm
              obtain ⟨g1, g2, g3⟩ := ih ps.2 ps.1 b js hrec
              exact ⟨g1.trans e1, g2.trans e2, g3.trans e3⟩
          · rw [if_neg ha] at h
            cases h
            exact ⟨rfl, rfl, rfl⟩
      | none =>
        simp only [hoct] at h
        cases hp : nd.parent with
        | some p => simp only [hp] at h; exact ih s p b js h
        | none =>
          simp only [hp] at h
          obtain ⟨ps, hm, hrec⟩ := Option.bind_eq_some.mp h
          obtain ⟨e1, e2, e3⟩ := make_parent_toward_frame s i b.center ps hm
          obtain ⟨g1, g2, g3⟩ := ih ps.2 ps.1 b js hrec
          exact ⟨g1.trans e1, g2.trans e2, g3.trans e3⟩

/-- The old node after `adjust` retain-filters an entry id out. -/
def retainEntry (ent : Nat) (nd : Node) : Node :=
  { nd with contents := nd.contents.filter (· != ent) }

/-- Inversion of a successful `modifyNode`. -/
theorem modifyNode_inv (s : LooseOctree) (i : Nat) (f : Node → Node) (s' : LooseOctree)
    (h : modifyNode s i f = some s') :
    ∃ nd, s.nodes.get? i = some nd ∧ s' = { s with nodes := s.nodes.set i (f nd) } := by
  unfold modifyNode at h
  cases hg : s.nodes.get? i with
  | none => rw [hg] at h; cases h
  | some nd => rw [hg] at h; cases h; exact ⟨nd, rfl, rfl⟩

/-- Inversion of a successful `modifyEntry`. -/
theorem modifyEntry_inv (s : LooseOctree) (i : Nat) (f : Entry → Entry) (s' : LooseOctree)
    (h : modifyEntry s i f = some s') :
    ∃ e, s.entries.get? i = some e ∧ s' = { s with entries := s.entries.set i (f e) } := by
  unfold modifyEntry at h
  cases hg : s.entries.get? i with
  | none => rw [hg] at h; cases h
  | some e => rw [hg] at h; cases h; exact ⟨e, rfl, rfl⟩

/-- The stored bounding cube of entry `i`, the quantity `adjust` is
claimed to update but the source never writes. -/
def entriesBcube (s : LooseOctree) (i : Nat) : Option BoundingCube :=
  (s.entries.get? i).map Entry.bcube

/-- The entry fixup of `free_node` rewrites only the node field: every
entry keeps its bounding cube. -/
theorem modifyEntry_bcube (s : LooseOctree) (i nid : Nat) (s' : LooseOctree)
    (h : modifyEntry s i (fun e => { e with node := nid }) = some s') :
    ∀ j, entriesBcube s' j = entriesBcube s j := by
  obtain ⟨e, he, rfl⟩ := modifyEntry_inv _ _ _ _ h
  intro j
  by_cases hij : i = j
  · subst hij
    show ((s.entries.set i _).get? i).map Entry.bcube = (s.entries.get? i).map Entry.bcube
    rw [nth_set_self _ _ _ (nth_some_lt _ _ _ he), he]
    rfl
  · show ((s.entries.set i _).get? j).map Entry.bcube = (s.entries.get? j).map Entry.bcube
    rw [nth_set_ne _ _ _ _ hij]

/-- `fixupEntries` preserves every entry's bounding cube. -/
theorem fixupEntries_bcube : ∀ (l : List Nat) (s : LooseOctree) (id : Nat)
    (s' : LooseOctree), fixupEntries s l id = some s' →
    ∀ j, entriesBcube s' j = entriesBcube s j := by
  intro l
  induction l with
  | nil =>
    intro s id s' h j
    cases h
    rfl
  | cons eid rest ih =>
    intro s id s' h j
    simp only [fixupEntries] at h
    obtain ⟨s1, hm, hrest⟩ := Option.bind_eq_some.mp h
    rw [ih s1 id s' hrest j, modifyEntry_bcube s eid id s1 hm j]

/-- `fixupParent` leaves the entry table untouched. -/
theorem fixupParent_entries (s : LooseOctree) (last : Node) (id : Nat) (s' : LooseOctree)
    (h : fixupParent s last id = some s') : s'.entries = s.entries := by
  unfold fixupParent at h
  cases hp : last.parent with
  | none => rw [hp] at h; cases h; rfl
  | some pid => rw [hp] at h; exact (modifyNode_frame _ _ _ _ h).1

/-- `fixupChildren` leaves the entry table untouched. -/
theorem fixupChildren_entries : ∀ (ch : List (Option Nat)) (s : LooseOctree) (id : Nat)
    (s' : LooseOctree), fixupChildren s ch id = some s' → s'.entries = s.entries := by
  intro ch
  induction ch with
  | nil => intro s id s' h; cases h; rfl
  | cons c rest ih =>
    intro s id s' h
    cases c with
    | none => exact ih s id s' h
    | some cid =>
      simp only [fixupChildren] at h
      obtain ⟨s1, hm, hrest⟩ := Option.bind_eq_some.mp h
      rw [ih s1 id s' hrest, (modifyNode_frame _ _ _ _ hm).1]

/-- `free_node` preserves every entry's bounding cube (it repoints node
fields only). -/
theorem free_node_bcube (s : LooseOctree) (id : Nat) (s' : LooseOctree)
    (h : free_node s id = some s') : ∀ j, entriesBcube s' j = entriesBcube s j := by
  unfold free_node at h
  by_cases hl : id + 1 = s.nodes.length
  · rw [if_pos hl] at h
    cases h
    intro j
    rfl
  · rw [if_neg hl] at h
    cases hlast : s.nodes.getLast? with
    | none => rw [hlast] at h; cases h
    | some last =>
      rw [hlast] at h
      obtain ⟨s2, h2, h'⟩ := Option.bind_eq_some.mp h
      obtain ⟨s3, h3, h''⟩ := Option.bind_eq_some.mp h'
      obtain ⟨s4, h4, h5⟩ := Option.bind_eq_some.mp h''
      intro j
      have e2 := fixupParent_entries _ _ _ _ h2
      have e3 : s3.entries = s2.entries := fixupChildren_entries _ _ _ _ h3
      have e4 := fixupEntries_bcube _ _ _ _ h4 j
      by_cases hlt : id < s4.nodes.length
      · rw [if_pos hlt] at h5
        cases h5
        calc entriesBcube { s4 with nodes := s4.nodes.set id last } j
            = entriesBcube s4 j := rfl
          _ = entriesBcube s3 j := e4
          _ = entriesBcube s j := by unfold entriesBcube; rw [e3, e2]
      · rw [if_neg hlt] at h5
        cases h5

/-- `maybe_free` preserves every entry's bounding cube. -/
theorem maybe_freeF_bcube : ∀ (fuel : Nat) (s : LooseOctree) (id : Nat)
    (s' : LooseOctree), maybe_freeF fuel s id = some s' →
    ∀ j, entriesBcube s' j = entriesBcube s j := by
  intro fuel
  induction fuel with
  | zero => intro s id s' h; cases h
  | succ n ih =>
    intro s id s' h j
    cases hg : s.nodes.get? id with
    | none =>
      simp only [maybe_freeF, hg] at h
      cases h
    | some nd =>
      simp only [maybe_freeF, hg] at h
      cases hp : nd.parent with
      | none => simp only [hp] at h; cases h; rfl
      | some pid =>
        simp only [hp] at h
        by_cases hb : (nd.contents.isEmpty && !(nd.children.any Option.isSome)) = true
        · rw [if_pos hb] at h
          obtain ⟨s1, hf, hrec⟩ := Option.bind_eq_some.mp h
          rw [ih s1 pid s' hrec j, free_node_bcube s id s1 hf j]
        · rw [if_neg hb] at h
          cases h
          rfl

/-- Claim C5 amended: whenever the recomputed best-fit node `n'` differs
from the entry's current node and the `adjust` call completes, afterwards
the entry's node field equals `n'`, the entry's stored `bcube` is
UNCHANGED (the source never writes it, so it does not become `b`), and
the entry id appears in slot `n'`'s contents.  Moreover the id is
filtered out of the old node before `maybe_free` runs, so whenever
`maybe_free` leaves the (filtered) old node in place — it frees a node
only when it is empty, childless and has a parent — the old node's final
contents are exactly its previous contents with the id removed. -/
theorem C5_adjust_moves_entry (fuel : Nat) (s : LooseOctree) (ent : Nat)
    (b : BoundingCube) (e : Entry) (n' : Nat) (s1 s' : LooseOctree)
    (hent : s.entries.get? ent = some e)
    (hget : get_nodeF fuel s e.node b = some (n', s1))
    (hne : n' ≠ e.node)
    (hadj : adjustF fuel s ent b = some s') :
    (s'.entries.get? ent).map Entry.node = some n' ∧
    (s'.entries.get? ent).map Entry.bcube = some e.bcube ∧
    (∃ ndm, s'.nodes.get? n' = some ndm ∧ ent ∈ ndm.contents) ∧
    (∀ nd, s1.nodes.get? e.node = some nd →
      maybe_freeF ((s1.nodes.set e.node (retainEntry ent nd)).length + 1)
        { s1 with nodes := s1.nodes.set e.node (retainEntry ent nd) } e.node
        = some { s1 with nodes := s1.nodes.set e.node (retainEntry ent nd) } →
      ∃ ndo, s'.nodes.get? e.node = some ndo ∧
        ndo.contents = nd.contents.filter (· != ent) ∧ ent ∉ ndo.contents) := by
  simp only [adjustF, hent, hget, Option.bind] at hadj
  rw [if_pos hne] at hadj
  obtain ⟨s2, hm1, hrest⟩ := Option.bind_eq_some.mp hadj
  obtain ⟨s3, hm2, hrest2⟩ := Option.bind_eq_some.mp hrest
  obtain ⟨s4, hm3, hm4⟩ := Option.bind_eq_some.mp hrest2
  obtain ⟨nd1, hnd1, rfl⟩ := modifyNode_inv _ _ _ _ hm1
  obtain ⟨nd3, hnd3, rfl⟩ := modifyNode_inv _ _ _ _ hm3
  obtain ⟨e4, he4, rfl⟩ := modifyEntry_inv _ _ _ _ hm4
  have hents1 : s1.entries = s.entries := (get_nodeF_frame fuel s e.node b (n', s1) hget).1
  have hb3 : ∀ j, entriesBcube s3 j = entriesBcube s j := by
    intro j
    have h32 := maybe_freeF_bcube _ _ _ _ hm2 j
    rw [h32]
    show (s1.entries.get? j).map Entry.bcube = (s.entries.get? j).map Entry.bcube
    rw [hents1]
  have he4' : s3.entries.get? ent = some e4 := he4
  have he4b : e4.bcube = e.bcube := by
    have hq3 : entriesBcube s3 ent = some e.bcube := by
      rw [hb3 ent]
      show (s.entries.get? ent).map Entry.bcube = some e.bcube
      rw [hent]
      rfl
    unfold entriesBcube at hq3
    rw [he4'] at hq3
    exact Option.some.inj hq3
  have hself : (s3.entries.set ent { e4 with node := n' }).get? ent
      = some { e4 with node := n' } := nth_set_self _ _ _ (nth_some_lt _ _ _ he4')
  refine ⟨?_, ?_, ?_, ?_⟩
  · show ((s3.entries.set ent { e4 with node := n' }).get? ent).map Entry.node = some n'
    rw [hself]
    rfl
  · show ((s3.entries.set ent { e4 with node := n' }).get? ent).map Entry.bcube
        = some e.bcube
    rw [hself]
    show some e4.bcube = some e.bcube
    rw [he4b]
  · refine ⟨{ nd3 with contents := nd3.contents ++ [ent] }, ?_, ?_⟩
    · show (s3.nodes.set n' { nd3 with contents := nd3.contents ++ [ent] }).get? n'
          = some { nd3 with contents := nd3.contents ++ [ent] }
      exact nth_set_self _ _ _ (nth_some_lt _ _ _ hnd3)
    · simp
  · intro nd hnd hkeep
    have hdet : nd = nd1 := Option.some.inj (hnd.symm.trans hnd1)
    subst hdet
    have h32 : s3 = { s1 with nodes := s1.nodes.set e.node (retainEntry ent nd) } := by
      have hmix := hkeep.symm.trans hm2
      exact (Option.some.inj hmix).symm
    subst h32
    refine ⟨retainEntry ent nd, ?_, rfl, ?_⟩
    · show (((s1.nodes.set e.node (retainEntry ent nd)).set n'
          { nd3 with contents := nd3.contents ++ [ent] }).get? e.node)
          = some (retainEntry ent nd)
      rw [nth_set_ne _ _ _ _ hne]
      exact nth_set_self _ _ _ (nth_some_lt _ _ _ hnd)
    · intro hmem
      have htrue := (List.mem_filter.mp hmem).2
      simp at htrue

/-- The state after inserting an entry with cube center (0,0,0), half-edge
9 into a fresh tree with root half-edge 8 and min_dist 1: the insert grows
a parent (node 1, half-edge 16) and the entry is assigned to it. -/
def c5State : LooseOctree :=
  ((insertF 3 (LooseOctree.new ⟨⟨0,0,0⟩, 8⟩ 1) ⟨⟨0,0,0⟩, 9⟩).map Prod.snd).getD
    (LooseOctree.new ⟨⟨0,0,0⟩, 8⟩ 1)

/-- The intermediate state of `adjust(0, {center 0, half-edge 17})` on
`c5State` right after `get_node` has grown a further parent (node 2,
half-edge 32) and chosen it as the new best-fit node. -/
def c5Mid : LooseOctree :=
  ((get_nodeF 3 c5State 1 ⟨⟨0,0,0⟩, 17⟩).map Prod.snd).getD c5State

/-- The final state of that same `adjust` call. -/
def c5Post : LooseOctree := (adjustF 3 c5State 0 ⟨⟨0,0,0⟩, 17⟩).getD c5State

/-- Claim C5 counterexample: entry 0 currently sits in node 1 (half-edge
16); `adjust(0, {center 0, half-edge 17})` relocates it to the new node 2,
but afterwards the entry's stored bcube still has half-edge 9 — not 17 as
the claim requires — and the emptied old node 1 still exists in the arena
(it is top-level, so `maybe_free` does not prune it). -/
theorem C5_counterexample :
    ((adjustF 3 c5State 0 ⟨⟨0,0,0⟩, 17⟩).map fun s' =>
      ((s'.entries.get? 0).map fun e => (e.node, e.bcube),
       (s'.nodes.get? 1).map fun nd => (nd.contents, nd.parent)))
    = some (some (2, ⟨⟨0,0,0⟩, 9⟩), some ([], none)) := by
  with_unfolding_all decide

/-- Claim C5 witness: the amended theorem applied to the concrete
relocating adjust on `c5State` (entry 0 moves from node 1 to node 2):
afterwards the entry's node is 2, its stored bcube keeps half-edge 9, the
id sits in node 2's contents, and the filtered old node keeps no
occurrence of the id whenever `maybe_free` leaves it in place. -/
theorem C5_adjust_moves_entry_witness :
    (c5Post.entries.get? 0).map Entry.node = some 2 ∧
    (c5Post.entries.get? 0).map Entry.bcube = some (⟨⟨0,0,0⟩, 9⟩ : BoundingCube) ∧
    (∃ ndm, c5Post.nodes.get? 2 = some ndm ∧ 0 ∈ ndm.contents) ∧
    (∀ nd, c5Mid.nodes.get? 1 = some nd →
      maybe_freeF ((c5Mid.nodes.set 1 (retainEntry 0 nd)).length + 1)
        { c5Mid with nodes := c5Mid.nodes.set 1 (retainEntry 0 nd) } 1
        = some { c5Mid with nodes := c5Mid.nodes.set 1 (retainEntry 0 nd) } →
      ∃ ndo, c5Post.nodes.get? 1 = some ndo ∧
        ndo.contents = nd.contents.filter (· != 0) ∧ 0 ∉ ndo.contents) :=
  C5_adjust_moves_entry 3 c5State 0 ⟨⟨0,0,0⟩, 17⟩ ⟨⟨⟨0,0,0⟩, 9⟩, 1, ()⟩ 2 c5Mid c5Post
    (by with_unfolding_all decide) (by with_unfolding_all decide)
    (by with_unfolding_all decide) (by with_unfolding_all decide)

/-! ## C9: get_node loops forever between a parent and a mis-placed child -/

/-- A fresh tree with root half-edge 8 centered at the origin and
`min_dist` 100 (large, so descent is enabled under the source's guard). -/
def c9Tree : LooseOctree := LooseOctree.new ⟨⟨0,0,0⟩, 8⟩ 100

/-- The bounding cube whose insertion never returns: center (3,3,-3),
half-edge 3 (positive, as the claim requires). -/
def c9Cube : BoundingCube := ⟨⟨3,3,-3⟩, 3⟩

/-- The tree after the first descend step of `get_node(root, c9Cube)`:
the point classifies to octant SXY (bits 0b011), and `get_child` — using
the axis-swapped `as_vector` — creates that child at center (-4,4,4),
half-edge 4, a corner that does NOT contain the point.  Every number here
and in the cycle below is a small integer, exactly representable in f32,
and the state never changes again, so the model is exact for the real
code. -/
def c9S : LooseOctree := ((get_child c9Tree 0 ⟨true,true,false⟩).map Prod.snd).getD c9Tree

/-- The two-node cycle: from the root, the descend guard holds and
`get_child` returns the existing child 1; from child 1, the point lies
outside its bound (diff (7,-1,-7) exceeds half-edge 4), so `get_node`
ascends through the parent pointer back to the root.  The state is
unchanged in both steps, so no fuel suffices. -/
theorem C9_cycle : ∀ fuel, get_nodeF fuel c9S 0 c9Cube = none ∧
    get_nodeF fuel c9S 1 c9Cube = none := by
  intro fuel
  induction fuel with
  | zero => exact ⟨rfl, rfl⟩
  | succ n ih =>
    refine ⟨?_, ?_⟩
    · have hstep : get_nodeF (n + 1) c9S 0 c9Cube = get_nodeF n c9S 1 c9Cube := by
        with_unfolding_all rfl
      rw [hstep]
      exact ih.2
    · have hstep : get_nodeF (n + 1) c9S 1 c9Cube = get_nodeF n c9S 0 c9Cube := by
        with_unfolding_all rfl
      rw [hstep]
      exact ih.1

/-- Claim C9: the claim states `get_node` terminates for every valid start
node and every cube with positive half-edge in any reachable state.  From
the freshly created tree `c9Tree` (a reachable state; the call below is
exactly what `insert` of `c9Cube` performs), `get_node(root, c9Cube)`
first creates the child of octant SXY at the wrong corner (-4,4,4) — the
axis-swapped `as_vector` — and then cycles forever: root descends into
child 1, child 1 classifies the center outside and ascends back to root.
No amount of fuel makes the call return, and since the looping state
repeats identically with small f32-exact values, the real program loops
forever as well. -/
theorem C9_get_node_diverges : ∀ fuel : Nat,
    get_nodeF fuel c9Tree 0 c9Cube = none := by
  intro fuel
  cases fuel with
  | zero => rfl
  | succ n =>
    have hstep : get_nodeF (n + 1) c9Tree 0 c9Cube = get_nodeF n c9S 1 c9Cube := by
      with_unfolding_all rfl
    rw [hstep]
    exact (C9_cycle n).2
